import Mathlib

/-!
Verification of the audio codec and playback-control subsystem of the
kanjou-voice application.

The first part embeds `src/services/audioUtils.ts` (the PCM decoder
`decodeAudioData` and the WAV encoder `bufferToWav`).  JavaScript numbers
are modelled as rationals (`ℚ`), byte sequences as `List ℕ` with each
entry in `[0, 256)`, and the JavaScript `| 0` conversion as truncation
toward zero.

The second part embeds the playback-controller logic of `src/App.tsx`
(`stopSource`, `playAudio`, `handlePause`, `handleSeek`, the
`requestAnimationFrame` position loop and the `onended` callback) as a
state machine over an explicit device clock.
-/

namespace KanjouVoice

/-- JavaScript `x | 0` applied to a number of magnitude below `2^31`:
truncation toward zero (`Int.tdiv` is T-division). -/
def jsTrunc (q : ℚ) : ℤ :=
  Int.tdiv q.num q.den

/-- `Math.max(-1, Math.min(1, s))` from `bufferToWav`. -/
def clampSample (s : ℚ) : ℚ :=
  max (-1) (min 1 s)

/-- The sample conversion of `bufferToWav`:
`sample = (0.5 + sample < 0 ? sample * 32768 : sample * 32767) | 0`
applied after clamping.  By JavaScript operator precedence the condition
is `(0.5 + sample) < 0`. -/
def quantizeSample (s : ℚ) : ℤ :=
  let c := clampSample s
  if 1/2 + c < 0 then jsTrunc (c * 32768) else jsTrunc (c * 32767)

/-- `DataView.setInt16(·, v, true)`: the value is reduced mod `2^16` and
written as two little-endian bytes. -/
def int16ToBytes (v : ℤ) : List ℕ :=
  let u := (v % 65536).toNat
  [u % 256, u / 256]

/-- Read a byte of a byte sequence (in-range accesses only ever occur in
the embedded code; out-of-range reads default to 0). -/
def getUint8 (data : List ℕ) (i : ℕ) : ℕ :=
  data.getD i 0

/-- `DataView.getInt16(byteIndex, true)`: two little-endian bytes,
interpreted as a signed 16-bit integer. -/
def getInt16LE (data : List ℕ) (i : ℕ) : ℤ :=
  let u := getUint8 data i + 256 * getUint8 data (i + 1)
  if u < 32768 then (u : ℤ) else (u : ℤ) - 65536

/-- `DataView.setUint16(·, v, true)`: value mod `2^16`, little-endian. -/
def u16LE (v : ℕ) : List ℕ :=
  [v % 256, v / 256 % 256]

/-- `DataView.setUint32(·, v, true)`: value mod `2^32`, little-endian. -/
def u32LE (v : ℕ) : List ℕ :=
  [v % 256, v / 256 % 256, v / 65536 % 256, v / 16777216 % 256]

/-- The decoded sample buffer (`AudioBuffer` as used by the code):
sample rate, channel count, frame count, and per-channel sample data. -/
structure DecodedAudio where
  sampleRate : ℕ
  numChannels : ℕ
  frameCount : ℕ
  channels : List (List ℚ)
deriving Repr, DecidableEq

/-- `buffer.getChannelData(ch)[pos]` (in-range accesses only arise in the
embedded code; out-of-range reads default to 0). -/
def sampleAt (a : DecodedAudio) (ch pos : ℕ) : ℚ :=
  (a.channels.getD ch []).getD pos 0

/-- The odd-length truncation at the top of `decodeAudioData`:
`if (data.byteLength % 2 !== 0) data = data.slice(0, data.byteLength - 1)`. -/
def truncateOdd (data : List ℕ) : List ℕ :=
  if data.length % 2 ≠ 0 then data.take (data.length - 1) else data

/-- The buffer built by a successful call of
`decodeAudioData(data, ctx, sampleRate, numChannels)` from
`src/services/audioUtils.ts`: truncate an odd trailing byte, compute
`frameCount = byteLength / 2 / numChannels` (on the success domain the
JavaScript floating-point quotient is exactly this integer), then for
each channel and frame read the little-endian 16-bit integer at
`(i * numChannels + channel) * 2` and normalize by `/ 32768.0`.  The
call's error paths — `ctx.createBuffer` rejecting a zero length, and
`DataView.getInt16` overrunning the view when the frame count is
fractional — are modelled by `decodeAudioDataJS` below, which returns
this buffer exactly when the program does not throw. -/
def decodeAudioData (data : List ℕ) (sampleRate : ℕ := 24000)
    (numChannels : ℕ := 1) : DecodedAudio :=
  let d := truncateOdd data
  let frameCount := d.length / 2 / numChannels
  { sampleRate := sampleRate
    numChannels := numChannels
    frameCount := frameCount
    channels := (List.range numChannels).map fun channel =>
      (List.range frameCount).map fun i =>
        (getInt16LE d ((i * numChannels + channel) * 2) : ℚ) / 32768 }

/-- The exceptions `decodeAudioData` can raise: `NotSupportedError` from
`ctx.createBuffer` (zero length), and `RangeError` from
`DataView.getInt16` (read past the end of the view). -/
inductive DecodeError where
  | notSupported
  | rangeError
deriving Repr, DecidableEq

/-- `decodeAudioData` as the JavaScript program actually behaves, error
paths included.  `frameCount = data.byteLength / 2 / numChannels` is a
floating-point quotient; `ctx.createBuffer(numChannels, frameCount,
sampleRate)` converts it with ToUint32 (truncation toward zero, so
`⌊byteLength/2⌋ / numChannels` in integers; `numChannels = 0` gives
`Infinity`, which also converts to 0) and throws `NotSupportedError`
when the resulting length is 0.  The copy loop then runs `i` over the
integers with `i < frameCount` — for positive `numChannels` exactly the
`i` with `i * numChannels < byteLength / 2` — and reads the two bytes at
`(i * numChannels + channel) * 2`; `DataView.getInt16` throws a
`RangeError` when such a read passes the end of the data (writes past
the end of a `Float32Array` are silently dropped and raise nothing).
When no error occurs the constructed buffer is the one `decodeAudioData`
describes. -/
def decodeAudioDataJS (data : List ℕ) (sampleRate : ℕ := 24000)
    (numChannels : ℕ := 1) : Except DecodeError DecodedAudio :=
  let d := truncateOdd data
  let m := d.length / 2
  if m / numChannels = 0 then
    .error .notSupported
  else if ∃ channel ∈ List.range numChannels, ∃ i ∈ List.range m,
      i * numChannels < m ∧ d.length < (i * numChannels + channel) * 2 + 2 then
    .error .rangeError
  else
    .ok (decodeAudioData data sampleRate numChannels)

/-- The 44-byte RIFF/WAVE header written by `bufferToWav` (byte values of
the ASCII literals RIFF, WAVE, fmt , data are written out). -/
def wavHeader (a : DecodedAudio) : List ℕ :=
  [82, 73, 70, 70] ++
  u32LE (36 + a.frameCount * a.numChannels * 2) ++
  [87, 65, 86, 69] ++
  [102, 109, 116, 32] ++
  u32LE 16 ++
  u16LE 1 ++
  u16LE a.numChannels ++
  u32LE a.sampleRate ++
  u32LE (a.sampleRate * 2 * a.numChannels) ++
  u16LE (a.numChannels * 2) ++
  u16LE 16 ++
  [100, 97, 116, 97] ++
  u32LE (a.frameCount * a.numChannels * 2)

/-- The interleaved sample data written by `bufferToWav`: frame-major,
channel-minor; each sample clamped, converted and written little-endian. -/
def wavData (a : DecodedAudio) : List ℕ :=
  ((List.range a.frameCount).map fun pos =>
    ((List.range a.numChannels).map fun i =>
      int16ToBytes (quantizeSample (sampleAt a i pos))).flatten).flatten

/-- `bufferToWav(buffer)` from `src/services/audioUtils.ts`: the 44-byte
header followed by the interleaved 16-bit data. -/
def bufferToWav (a : DecodedAudio) : List ℕ :=
  wavHeader a ++ wavData a

/-- A one-channel buffer holding the given samples (helper for stating
concrete instances). -/
def mono (samples : List ℚ) (sampleRate : ℕ := 24000) : DecodedAudio :=
  { sampleRate := sampleRate
    numChannels := 1
    frameCount := samples.length
    channels := [samples] }

/-- `AudioBuffer.duration` as used by `playAudio`:
`frameCount / sampleRate` seconds. -/
def DecodedAudio.duration (a : DecodedAudio) : ℚ :=
  (a.frameCount : ℚ) / (a.sampleRate : ℚ)

/-!
## The playback controller of `src/App.tsx`

The audio-player state of the `App` component.  Device time
(`AudioContext.currentTime`) is passed explicitly to every operation.
Sources created by `ctx.createBufferSource()` are given fresh numeric
ids; `started` records every source on which `start()` was called and
`stopped` every source on which `stop()` was called, so that "active
output sources" is expressible.
-/

structure PlayerState where
  /-- `sourceNodeRef.current` (id of the current source node, if any). -/
  sourceNode : Option ℕ := none
  /-- `startTimeRef.current`: the anchor device time of the current run. -/
  startTime : ℚ := 0
  /-- `pausedAtRef.current`. -/
  pausedAt : ℚ := 0
  /-- `isPlaying` React state. -/
  isPlaying : Bool := false
  /-- `currentTime` React state: the published playback position. -/
  currentTime : ℚ := 0
  /-- `currentlyPlayingId` React state. -/
  currentlyPlayingId : Option String := none
  /-- `duration` React state. -/
  duration : ℚ := 0
  /-- `activeBufferRef.current`. -/
  activeBuffer : Option DecodedAudio := none
  /-- whether the `requestAnimationFrame` position loop is scheduled. -/
  animFrame : Bool := false
  /-- fresh-id supply for `ctx.createBufferSource()`. -/
  nextSourceId : ℕ := 0
  /-- every source on which `start()` was called. -/
  started : List ℕ := []
  /-- every source on which `stop()` was called. -/
  stopped : List ℕ := []
deriving Repr

/-- The initial component state. -/
def initState : PlayerState := {}

/-- `stopSource()` from `src/App.tsx`: stop and disconnect the current
source node (if any), null the ref, and cancel the animation frame. -/
def stopSource (s : PlayerState) : PlayerState :=
  let s1 :=
    match s.sourceNode with
    | some n => { s with stopped := n :: s.stopped, sourceNode := none }
    | none => s
  { s1 with animFrame := false }

/-- One invocation of the `updateTime` animation loop body:
`cur = now - startTimeRef.current`; if `cur <= buffer.duration` publish
`cur` and reschedule, otherwise stop rescheduling. -/
def updateTime (now : ℚ) (s : PlayerState) : PlayerState :=
  let cur := now - s.startTime
  if cur ≤ s.duration then { s with currentTime := cur, animFrame := true }
  else { s with animFrame := false }

/-- First stage of `playAudio`: `if (currentlyPlayingId !== id)` tear
the old source down, reset the paused offset, record the new track, its
buffer and its duration; otherwise just stop the current source. -/
def playSwitch (id : String) (buffer : DecodedAudio) (s : PlayerState) :
    PlayerState :=
  if s.currentlyPlayingId ≠ some id then
    let t := stopSource s
    { t with pausedAt := 0
             currentlyPlayingId := some id
             activeBuffer := some buffer
             duration := buffer.duration }
  else
    stopSource s

/-- Second stage of `playAudio`: create a fresh source, connect and
start it at `ctx.currentTime` with the given offset, record the anchor
`startTime = startAt - offset`, and mark playing. -/
def startSource (offset now : ℚ) (s1 : PlayerState) : PlayerState :=
  { s1 with sourceNode := some s1.nextSourceId
            nextSourceId := s1.nextSourceId + 1
            started := s1.nextSourceId :: s1.started
            startTime := now - offset
            isPlaying := true }

/-- `playAudio(id, buffer, offset)` from `src/App.tsx`: the track-switch
stage, then the source start, then the synchronous first run of the
`updateTime` loop body. -/
def playAudio (id : String) (buffer : DecodedAudio) (offset : ℚ)
    (now : ℚ) (s : PlayerState) : PlayerState :=
  updateTime now (startSource offset now (playSwitch id buffer s))

/-- The `source.onended` callback: recompute
`elapsed = currentTime - startTimeRef.current`; only when
`elapsed >= buffer.duration - 0.1` treat the run as naturally complete
and reset the published position and paused offset. -/
def onEnded (now : ℚ) (s : PlayerState) : PlayerState :=
  let elapsed := now - s.startTime
  if s.duration - 1/10 ≤ elapsed then
    { s with isPlaying := false, currentTime := 0, pausedAt := 0 }
  else s

/-- `handlePause()` from `src/App.tsx`. -/
def handlePause (now : ℚ) (s : PlayerState) : PlayerState :=
  let s1 := stopSource s
  { s1 with pausedAt := now - s1.startTime, isPlaying := false }

/-- `handleSeek(e)` from `src/App.tsx`: store the new time into the
published position and the paused offset, then, if a track is loaded
and currently playing, restart playback at the new time. -/
def handleSeek (newTime : ℚ) (now : ℚ) (s : PlayerState) : PlayerState :=
  let s1 := { s with currentTime := newTime, pausedAt := newTime }
  match s1.currentlyPlayingId, s1.activeBuffer with
  | some id, some buffer =>
      if s1.isPlaying then playAudio id buffer newTime now s1 else s1
  | _, _ => s1

/-- The externally triggerable events of the player. -/
inductive PlayerOp where
  | play (id : String) (buffer : DecodedAudio) (offset : ℚ) (now : ℚ)
  | pause (now : ℚ)
  | seek (newTime : ℚ) (now : ℚ)
  | tick (now : ℚ)
  | ended (now : ℚ)

/-- Apply one event to the player state (`tick` is a scheduled
animation frame: it runs the loop body only when one is scheduled). -/
def PlayerOp.apply : PlayerOp → PlayerState → PlayerState
  | .play id buffer offset now, s => playAudio id buffer offset now s
  | .pause now, s => handlePause now s
  | .seek newTime now, s => handleSeek newTime now s
  | .tick now, s => if s.animFrame then updateTime now s else s
  | .ended now, s => onEnded now s

/-- Run a sequence of events from a state. -/
def runOps (ops : List PlayerOp) (s : PlayerState) : PlayerState :=
  ops.foldl (fun st op => op.apply st) s

/-- A source is active when it was started and never stopped. -/
def activeSource (s : PlayerState) (n : ℕ) : Prop :=
  n ∈ s.started ∧ n ∉ s.stopped

instance (s : PlayerState) (n : ℕ) : Decidable (activeSource s n) :=
  inferInstanceAs (Decidable (n ∈ s.started ∧ n ∉ s.stopped))

/-- The reachable-state invariant tying the started/stopped records to
the single source-node reference. -/
def SourceInv (s : PlayerState) : Prop :=
  (∀ n ∈ s.started, n < s.nextSourceId) ∧
  (∀ n ∈ s.stopped, n < s.nextSourceId) ∧
  (∀ n ∈ s.started, n ∉ s.stopped → s.sourceNode = some n) ∧
  (∀ n, s.sourceNode = some n → n ∈ s.started ∧ n ∉ s.stopped)

/-!
## Helper lemmas about truncation, clamping and quantization
-/

theorem jsTrunc_of_nonneg {q : ℚ} (h : 0 ≤ q) : jsTrunc q = ⌊q⌋ := by
  rw [jsTrunc, Int.tdiv_eq_ediv (Rat.num_nonneg.mpr h) (Int.ofNat_nonneg q.den),
    Rat.floor_def]

theorem jsTrunc_neg (q : ℚ) : jsTrunc (-q) = -jsTrunc q := by
  rw [jsTrunc, jsTrunc, Rat.num_neg_eq_neg_num, Rat.den_neg_eq_den, Int.neg_tdiv]

theorem jsTrunc_of_neg {q : ℚ} (h : q < 0) : jsTrunc q = -⌊-q⌋ := by
  have h' : 0 ≤ -q := by linarith
  have := jsTrunc_neg (-q)
  rw [neg_neg] at this
  rw [this, jsTrunc_of_nonneg h']

theorem jsTrunc_le {q : ℚ} (h : 0 ≤ q) : (jsTrunc q : ℚ) ≤ q := by
  rw [jsTrunc_of_nonneg h]
  exact Int.floor_le q

theorem le_jsTrunc {q : ℚ} (h : q ≤ 0) : q ≤ (jsTrunc q : ℚ) := by
  rcases lt_or_eq_of_le h with h' | h'
  · rw [jsTrunc_of_neg h']
    push_cast
    linarith [Int.floor_le (-q)]
  · subst h'
    norm_num [jsTrunc]

theorem jsTrunc_nonpos {q : ℚ} (h : q ≤ 0) : jsTrunc q ≤ 0 := by
  rcases lt_or_eq_of_le h with h' | h'
  · rw [jsTrunc_of_neg h']
    have : (0 : ℤ) ≤ ⌊-q⌋ := Int.floor_nonneg.mpr (by linarith)
    omega
  · subst h'
    norm_num [jsTrunc]

theorem jsTrunc_nonneg {q : ℚ} (h : 0 ≤ q) : 0 ≤ jsTrunc q := by
  rw [jsTrunc_of_nonneg h]
  exact Int.floor_nonneg.mpr h

theorem sub_one_lt_jsTrunc (q : ℚ) : q - 1 < (jsTrunc q : ℚ) := by
  rcases lt_or_le q 0 with h | h
  · linarith [le_jsTrunc (le_of_lt h)]
  · rw [jsTrunc_of_nonneg h]
    exact Int.sub_one_lt_floor q

theorem jsTrunc_lt_add_one (q : ℚ) : (jsTrunc q : ℚ) < q + 1 := by
  rcases lt_or_le q 0 with h | h
  · rw [jsTrunc_of_neg h]
    push_cast
    linarith [Int.sub_one_lt_floor (-q)]
  · linarith [jsTrunc_le h]

theorem clampSample_mem (s : ℚ) : -1 ≤ clampSample s ∧ clampSample s ≤ 1 := by
  constructor
  · exact le_max_left _ _
  · exact max_le (by norm_num) (min_le_left _ _)

theorem clampSample_eq_self {s : ℚ} (h1 : -1 ≤ s) (h2 : s ≤ 1) :
    clampSample s = s := by
  rw [clampSample, min_eq_right h2, max_eq_right h1]

theorem quantizeSample_range (s : ℚ) :
    -32768 ≤ quantizeSample s ∧ quantizeSample s ≤ 32767 := by
  obtain ⟨hl, hu⟩ := clampSample_mem s
  rw [quantizeSample]
  set c := clampSample s with hc
  split
  case isTrue h =>
    have hcneg : c * 32768 ≤ 0 := by nlinarith
    constructor
    · have h1 : c * 32768 ≤ (jsTrunc (c * 32768) : ℚ) := le_jsTrunc hcneg
      have h2 : (-32768 : ℚ) ≤ c * 32768 := by nlinarith
      exact_mod_cast h1.trans' h2
    · have := jsTrunc_nonpos hcneg
      omega
  case isFalse h =>
    have hge : -(1/2 : ℚ) ≤ c := by linarith [not_lt.mp h]
    rcases le_or_lt 0 (c * 32767) with hq | hq
    · constructor
      · have := jsTrunc_nonneg hq
        omega
      · have h1 : (jsTrunc (c * 32767) : ℚ) ≤ c * 32767 := jsTrunc_le hq
        have h2 : c * 32767 ≤ 32767 := by nlinarith
        exact_mod_cast h1.trans h2
    · constructor
      · have h1 : c * 32767 ≤ (jsTrunc (c * 32767) : ℚ) := le_jsTrunc hq.le
        have h2 : (-32768 : ℚ) ≤ c * 32767 := by nlinarith
        exact_mod_cast h1.trans' h2
      · have := jsTrunc_nonpos hq.le
        omega

/-!
## Byte-level lemmas
-/

theorem getInt16LE_int16ToBytes {v : ℤ} (h1 : -32768 ≤ v) (h2 : v ≤ 32767) :
    getInt16LE (int16ToBytes v) 0 = v := by
  simp only [getInt16LE, int16ToBytes, getUint8, List.getD_cons_zero,
    List.getD_cons_succ]
  have hm : (v % 65536).toNat % 256 + 256 * ((v % 65536).toNat / 256)
      = (v % 65536).toNat := Nat.mod_add_div _ _
  rw [hm]
  split <;> omega

theorem getD_map_range {α : Type} (f : ℕ → α) (d : α) {n i : ℕ} (h : i < n) :
    ((List.range n).map f).getD i d = f i := by
  rw [List.getD_eq_getElem _ d (by simpa using h)]
  simp

theorem getUint8_take {data : List ℕ} {k i : ℕ} (h : i < k) :
    getUint8 (data.take k) i = getUint8 data i := by
  simp only [getUint8, List.getD_eq_getElem?_getD, List.getElem?_take_of_lt h]

/-- Every in-range sample of the decoder output is the little-endian
16-bit integer at the interleaved byte offset, normalized by 32768. -/
theorem decode_sample_eq (data : List ℕ) (sr ch c i : ℕ)
    (hc : c < ch) (hi : i < (decodeAudioData data sr ch).frameCount) :
    sampleAt (decodeAudioData data sr ch) c i
      = (getInt16LE data ((i * ch + c) * 2) : ℚ) / 32768 := by
  have hfc : (decodeAudioData data sr ch).frameCount
      = (truncateOdd data).length / 2 / ch := rfl
  rw [hfc] at hi
  have hsample : sampleAt (decodeAudioData data sr ch) c i
      = (getInt16LE (truncateOdd data) ((i * ch + c) * 2) : ℚ) / 32768 := by
    rw [sampleAt]
    show ((((List.range ch).map _).getD c []).getD i 0 : ℚ) = _
    rw [getD_map_range _ _ hc, getD_map_range _ _ hi]
  rw [hsample]
  -- the two read offsets are within the truncated data, where the
  -- truncated and the original byte sequence agree
  have hoff : (i * ch + c) * 2 + 2 ≤ (truncateOdd data).length := by
    have h1 : i * ch + c + 1 ≤ ((truncateOdd data).length / 2 / ch) * ch := by
      calc i * ch + c + 1 ≤ i * ch + ch := by omega
      _ = (i + 1) * ch := by ring
      _ ≤ ((truncateOdd data).length / 2 / ch) * ch :=
          Nat.mul_le_mul_right _ (by omega)
    have h2 : ((truncateOdd data).length / 2 / ch) * ch
        ≤ (truncateOdd data).length / 2 := Nat.div_mul_le_self _ _
    have h3 : ((truncateOdd data).length / 2) * 2 ≤ (truncateOdd data).length :=
      Nat.div_mul_le_self _ _
    omega
  have hagree : getInt16LE (truncateOdd data) ((i * ch + c) * 2)
      = getInt16LE data ((i * ch + c) * 2) := by
    rw [truncateOdd]
    split
    case isTrue h =>
      have hlen : data.length - 1 < data.length := by
        rcases Nat.eq_zero_or_pos data.length with h0 | h0
        · rw [truncateOdd, if_pos h] at hoff
          omega
        · omega
      have hofft : (i * ch + c) * 2 + 2 ≤ data.length - 1 := by
        rw [truncateOdd, if_pos h] at hoff
        calc (i * ch + c) * 2 + 2 ≤ (data.take (data.length - 1)).length := hoff
        _ ≤ data.length - 1 := by simp
      rw [getInt16LE, getInt16LE, getUint8_take (by omega), getUint8_take (by omega)]
    case isFalse h => rfl
  rw [hagree]

/-- The data chunk of a one-frame mono buffer is exactly the two bytes
of its quantized sample. -/
theorem wavData_mono (s : ℚ) :
    wavData (mono [s]) = int16ToBytes (quantizeSample s) := by
  have h1 : List.range 1 = [0] := rfl
  simp [wavData, mono, sampleAt, h1]

/-- Encode-then-decode of a single mono sample, reduced to the
quantizer: the decoded value is the quantized integer over 32768. -/
theorem roundTrip_eq (s : ℚ) :
    sampleAt (decodeAudioData (wavData (mono [s])) 24000 1) 0 0
      = (quantizeSample s : ℚ) / 32768 := by
  rw [wavData_mono]
  have hlen : (int16ToBytes (quantizeSample s)).length = 2 := rfl
  have hfc : (decodeAudioData (int16ToBytes (quantizeSample s)) 24000 1).frameCount
      = 1 := by
    show (truncateOdd (int16ToBytes (quantizeSample s))).length / 2 / 1 = 1
    simp [truncateOdd, hlen]
  rw [decode_sample_eq _ 24000 1 0 0 (by omega) (by omega)]
  obtain ⟨h1, h2⟩ := quantizeSample_range s
  rw [show (0 * 1 + 0) * 2 = 0 by ring, getInt16LE_int16ToBytes h1 h2]

/-!
## State-machine lemmas for the playback controller
-/

theorem stopSource_sourceNode (s : PlayerState) :
    (stopSource s).sourceNode = none := by
  rw [stopSource]
  cases h : s.sourceNode with
  | none => exact h
  | some m => rfl

theorem stopSource_animFrame (s : PlayerState) :
    (stopSource s).animFrame = false :=
  rfl

theorem stopSource_stops {s : PlayerState} {n : ℕ} (h : s.sourceNode = some n) :
    n ∈ (stopSource s).stopped := by
  rw [stopSource, h]
  exact List.mem_cons_self _ _

theorem stopSource_fields (s : PlayerState) :
    (stopSource s).startTime = s.startTime ∧
    (stopSource s).pausedAt = s.pausedAt ∧
    (stopSource s).currentTime = s.currentTime ∧
    (stopSource s).isPlaying = s.isPlaying ∧
    (stopSource s).duration = s.duration ∧
    (stopSource s).currentlyPlayingId = s.currentlyPlayingId := by
  rw [stopSource]
  cases s.sourceNode <;> exact ⟨rfl, rfl, rfl, rfl, rfl, rfl⟩

theorem sourceInv_init : SourceInv initState := by
  refine ⟨?_, ?_, ?_, ?_⟩ <;> intro n hn <;> simp [initState] at hn

theorem sourceInv_stopSource {s : PlayerState} (h : SourceInv s) :
    SourceInv (stopSource s) := by
  obtain ⟨h1, h2, h3, h4⟩ := h
  rw [stopSource]
  cases hsn : s.sourceNode with
  | none =>
      refine ⟨h1, h2, fun n hn hns => ?_, fun n hn => ?_⟩
      · exact absurd ((h3 n hn hns).symm.trans hsn) (by simp)
      · have hn' : s.sourceNode = some n := hn
        rw [hsn] at hn'
        exact absurd hn' (by simp)
  | some m =>
      refine ⟨h1, ?_, fun n hn hns => ?_, fun n hn => ?_⟩
      · intro n hn
        rcases List.mem_cons.mp hn with rfl | hn'
        · exact h1 n ((h4 n hsn).1)
        · exact h2 n hn'
      · exfalso
        have hne : n ≠ m := fun hnm => hns (hnm ▸ List.mem_cons_self _ _)
        have hns' : n ∉ s.stopped := fun hmem => hns (List.mem_cons_of_mem _ hmem)
        have heq := (h3 n hn hns').symm.trans hsn
        injection heq with heq
        exact hne heq
      · exact absurd hn (by simp)

theorem sourceInv_fresh {s1 s2 : PlayerState} (hInv : SourceInv s1)
    (hsn : s1.sourceNode = none)
    (h1 : s2.sourceNode = some s1.nextSourceId)
    (h2 : s2.nextSourceId = s1.nextSourceId + 1)
    (h3 : s2.started = s1.nextSourceId :: s1.started)
    (h4 : s2.stopped = s1.stopped) :
    SourceInv s2 := by
  obtain ⟨i1, i2, i3, i4⟩ := hInv
  refine ⟨?_, ?_, ?_, ?_⟩
  · intro n hn
    rw [h3] at hn
    rw [h2]
    rcases List.mem_cons.mp hn with rfl | hn'
    · omega
    · have := i1 n hn'
      omega
  · intro n hn
    rw [h4] at hn
    rw [h2]
    have := i2 n hn
    omega
  · intro n hn hns
    rw [h3] at hn
    rw [h4] at hns
    rw [h1]
    rcases List.mem_cons.mp hn with rfl | hn'
    · rfl
    · exact absurd ((i3 n hn' hns).symm.trans hsn) (by simp)
  · intro n hn
    rw [h1] at hn
    injection hn with hn
    subst hn
    rw [h3, h4]
    refine ⟨List.mem_cons_self _ _, fun hmem => ?_⟩
    have := i2 _ hmem
    omega

theorem sourceInv_playSwitch {s : PlayerState} (h : SourceInv s)
    (id : String) (buffer : DecodedAudio) :
    SourceInv (playSwitch id buffer s) := by
  rw [playSwitch]
  split
  · exact sourceInv_stopSource h
  · exact sourceInv_stopSource h

theorem playSwitch_sourceNode (id : String) (buffer : DecodedAudio)
    (s : PlayerState) : (playSwitch id buffer s).sourceNode = none := by
  rw [playSwitch]
  split
  · exact stopSource_sourceNode s
  · exact stopSource_sourceNode s

theorem sourceInv_updateTime {s : PlayerState} (h : SourceInv s) (now : ℚ) :
    SourceInv (updateTime now s) := by
  rw [updateTime]
  split <;> exact h

theorem sourceInv_playAudio {s : PlayerState} (h : SourceInv s)
    (id : String) (buffer : DecodedAudio) (offset now : ℚ) :
    SourceInv (playAudio id buffer offset now s) := by
  rw [playAudio]
  exact sourceInv_updateTime
    (sourceInv_fresh (sourceInv_playSwitch h id buffer)
      (playSwitch_sourceNode id buffer s) (by rfl) (by rfl) (by rfl) (by rfl)) now

theorem sourceInv_onEnded {s : PlayerState} (h : SourceInv s) (now : ℚ) :
    SourceInv (onEnded now s) := by
  rw [onEnded]
  split <;> exact h

theorem sourceInv_handlePause {s : PlayerState} (h : SourceInv s) (now : ℚ) :
    SourceInv (handlePause now s) := by
  rw [handlePause]
  exact sourceInv_stopSource h

theorem sourceInv_handleSeek {s : PlayerState} (h : SourceInv s)
    (newTime now : ℚ) : SourceInv (handleSeek newTime now s) := by
  rw [handleSeek]
  have h' : SourceInv ({ s with currentTime := newTime, pausedAt := newTime }
      : PlayerState) := h
  split
  · split
    · exact sourceInv_playAudio h' _ _ _ _
    · exact h'
  · exact h'

theorem sourceInv_apply (op : PlayerOp) {s : PlayerState} (h : SourceInv s) :
    SourceInv (op.apply s) := by
  cases op with
  | play id buffer offset now => exact sourceInv_playAudio h id buffer offset now
  | pause now => exact sourceInv_handlePause h now
  | seek newTime now => exact sourceInv_handleSeek h newTime now
  | tick now =>
      rw [PlayerOp.apply]
      split
      · exact sourceInv_updateTime h now
      · exact h
  | ended now => exact sourceInv_onEnded h now

theorem sourceInv_runOps (ops : List PlayerOp) {s : PlayerState}
    (h : SourceInv s) : SourceInv (runOps ops s) := by
  induction ops generalizing s with
  | nil => exact h
  | cons op rest ih =>
      rw [runOps, List.foldl_cons]
      exact ih (sourceInv_apply op h)

theorem sourceInv_unique {s : PlayerState} (h : SourceInv s) {m m' : ℕ}
    (hm : activeSource s m) (hm' : activeSource s m') : m = m' := by
  have e1 := h.2.2.1 m hm.1 hm.2
  have e2 := h.2.2.1 m' hm'.1 hm'.2
  rw [e1] at e2
  injection e2

theorem jsTrunc_cases (q : ℚ) : jsTrunc q = if q < 0 then -⌊-q⌋ else ⌊q⌋ := by
  split
  case isTrue h => exact jsTrunc_of_neg h
  case isFalse h => exact jsTrunc_of_nonneg (not_lt.mp h)

theorem truncateOdd_eq_take (data : List ℕ) :
    truncateOdd data = data.take (2 * (data.length / 2)) := by
  rw [truncateOdd]
  split
  case isTrue h => congr 1; omega
  case isFalse h =>
    rw [show 2 * (data.length / 2) = data.length by omega, List.take_length]

theorem truncateOdd_length (data : List ℕ) :
    (truncateOdd data).length = 2 * (data.length / 2) := by
  rw [truncateOdd_eq_take, List.length_take]
  omega

theorem truncateOdd_take (data : List ℕ) :
    truncateOdd (data.take (2 * (data.length / 2))) = data.take (2 * (data.length / 2)) := by
  rw [truncateOdd, if_neg]
  rw [List.length_take]
  omega

theorem length_flatten_const {α : Type} (f : ℕ → List α) (k n : ℕ)
    (h : ∀ i, (f i).length = k) :
    ((List.range n).map f).flatten.length = n * k := by
  induction n with
  | zero => simp
  | succ m ih =>
      rw [List.range_succ]
      simp only [List.map_append, List.flatten_append, List.length_append, ih]
      simp [h m]
      ring

theorem wavData_length (a : DecodedAudio) :
    (wavData a).length = a.frameCount * a.numChannels * 2 := by
  rw [wavData]
  rw [length_flatten_const _ (a.numChannels * 2) _ fun pos => ?_]
  · ring
  · exact length_flatten_const _ 2 _ fun i => rfl

theorem wavHeader_length (a : DecodedAudio) : (wavHeader a).length = 44 := rfl

/-!
## Projection lemmas for the playback operations
-/

theorem updateTime_keeps (now : ℚ) (u : PlayerState) :
    (updateTime now u).startTime = u.startTime ∧
    (updateTime now u).duration = u.duration ∧
    (updateTime now u).pausedAt = u.pausedAt ∧
    (updateTime now u).isPlaying = u.isPlaying ∧
    (updateTime now u).currentlyPlayingId = u.currentlyPlayingId ∧
    (updateTime now u).stopped = u.stopped := by
  rw [updateTime]
  split <;> exact ⟨rfl, rfl, rfl, rfl, rfl, rfl⟩

theorem updateTime_pos {now : ℚ} {u : PlayerState}
    (h : now - u.startTime ≤ u.duration) :
    (updateTime now u).currentTime = now - u.startTime ∧
    (updateTime now u).animFrame = true := by
  rw [updateTime, if_pos h]
  exact ⟨rfl, rfl⟩

theorem playSwitch_of_ne {s : PlayerState} {id : String}
    (h : s.currentlyPlayingId ≠ some id) (buffer : DecodedAudio) :
    playSwitch id buffer s
      = { stopSource s with
          pausedAt := 0
          currentlyPlayingId := some id
          activeBuffer := some buffer
          duration := buffer.duration } := by
  rw [playSwitch, if_pos h]

theorem playSwitch_of_eq {s : PlayerState} {id : String}
    (h : s.currentlyPlayingId = some id) (buffer : DecodedAudio) :
    playSwitch id buffer s = stopSource s := by
  rw [playSwitch, if_neg (by simp [h])]

theorem playAudio_startTime (id : String) (buffer : DecodedAudio)
    (offset now : ℚ) (s : PlayerState) :
    (playAudio id buffer offset now s).startTime = now - offset := by
  rw [playAudio, (updateTime_keeps _ _).1]
  rfl

theorem playAudio_isPlaying (id : String) (buffer : DecodedAudio)
    (offset now : ℚ) (s : PlayerState) :
    (playAudio id buffer offset now s).isPlaying = true := by
  rw [playAudio, (updateTime_keeps _ _).2.2.2.1]
  rfl

theorem playAudio_duration_of_ne {s : PlayerState} {id : String}
    (h : s.currentlyPlayingId ≠ some id) (buffer : DecodedAudio)
    (offset now : ℚ) :
    (playAudio id buffer offset now s).duration = buffer.duration := by
  rw [playAudio, (updateTime_keeps _ _).2.1,
    show (startSource offset now (playSwitch id buffer s)).duration
      = (playSwitch id buffer s).duration from rfl,
    playSwitch_of_ne h]

theorem playAudio_currentlyPlayingId_of_ne {s : PlayerState} {id : String}
    (h : s.currentlyPlayingId ≠ some id) (buffer : DecodedAudio)
    (offset now : ℚ) :
    (playAudio id buffer offset now s).currentlyPlayingId = some id := by
  rw [playAudio, (updateTime_keeps _ _).2.2.2.2.1,
    show (startSource offset now (playSwitch id buffer s)).currentlyPlayingId
      = (playSwitch id buffer s).currentlyPlayingId from rfl,
    playSwitch_of_ne h]

theorem playAudio_pausedAt_of_ne {s : PlayerState} {id : String}
    (h : s.currentlyPlayingId ≠ some id) (buffer : DecodedAudio)
    (offset now : ℚ) :
    (playAudio id buffer offset now s).pausedAt = 0 := by
  rw [playAudio, (updateTime_keeps _ _).2.2.1,
    show (startSource offset now (playSwitch id buffer s)).pausedAt
      = (playSwitch id buffer s).pausedAt from rfl,
    playSwitch_of_ne h]

theorem playAudio_stopped_of_ne {s : PlayerState} {id : String}
    (h : s.currentlyPlayingId ≠ some id) (buffer : DecodedAudio)
    (offset now : ℚ) :
    (playAudio id buffer offset now s).stopped = (stopSource s).stopped := by
  rw [playAudio, (updateTime_keeps _ _).2.2.2.2.2,
    show (startSource offset now (playSwitch id buffer s)).stopped
      = (playSwitch id buffer s).stopped from rfl,
    playSwitch_of_ne h]

theorem playAudio_position (id : String) (buffer : DecodedAudio)
    (offset now : ℚ) (s : PlayerState) (t : ℚ)
    (hoff : offset ≤ (playAudio id buffer offset now s).duration)
    (ht : t - (now - offset) ≤ (playAudio id buffer offset now s).duration) :
    ((PlayerOp.tick t).apply (playAudio id buffer offset now s)).currentTime
      = t - (now - offset) := by
  set u := startSource offset now (playSwitch id buffer s) with hu
  have hus : u.startTime = now - offset := rfl
  have hdur : (playAudio id buffer offset now s).duration = u.duration :=
    (updateTime_keeps now u).2.1
  have hcond : now - u.startTime ≤ u.duration := by
    rw [hus, sub_sub_cancel]
    rw [hdur] at hoff
    exact hoff
  have hanim : (playAudio id buffer offset now s).animFrame = true := by
    rw [playAudio, ← hu]
    exact (updateTime_pos hcond).2
  have hstart : (playAudio id buffer offset now s).startTime = now - offset := by
    rw [playAudio, ← hu, (updateTime_keeps now u).1, hus]
  rw [PlayerOp.apply, if_pos (by rw [hanim])]
  have hcond2 : t - (playAudio id buffer offset now s).startTime
      ≤ (playAudio id buffer offset now s).duration := by
    rw [hstart]
    exact ht
  rw [(updateTime_pos hcond2).1, hstart]

theorem playAudio_seek_restart {s : PlayerState} {id : String}
    (h : s.currentlyPlayingId = some id) (buffer : DecodedAudio)
    (newTime now : ℚ) :
    (playAudio id buffer newTime now s).pausedAt = s.pausedAt ∧
    (playAudio id buffer newTime now s).currentTime
      = (if now - (now - newTime) ≤ s.duration then now - (now - newTime)
         else s.currentTime) := by
  rw [playAudio, playSwitch_of_eq h buffer]
  set u := startSource newTime now (stopSource s) with hu
  have hst : u.startTime = now - newTime := rfl
  have hd : u.duration = s.duration := by
    rw [show u.duration = (stopSource s).duration from rfl,
      (stopSource_fields s).2.2.2.2.1]
  have hpa : u.pausedAt = s.pausedAt := by
    rw [show u.pausedAt = (stopSource s).pausedAt from rfl,
      (stopSource_fields s).2.1]
  have hct : u.currentTime = s.currentTime := by
    rw [show u.currentTime = (stopSource s).currentTime from rfl,
      (stopSource_fields s).2.2.1]
  refine ⟨by rw [(updateTime_keeps now u).2.2.1, hpa], ?_⟩
  rcases le_or_lt (now - u.startTime) u.duration with hle | hlt
  · rw [(updateTime_pos hle).1, hst,
      if_pos (by rw [← hst, ← hd]; exact hle)]
  · rw [updateTime, if_neg (not_le.mpr hlt),
      if_neg (by rw [← hst, ← hd]; exact not_le.mpr hlt)]
    exact hct

theorem playAudio_same_track_position {u : PlayerState} {id : String}
    (h : u.currentlyPlayingId = some id) (buffer : DecodedAudio)
    (x now : ℚ) (hct : u.currentTime = x) (hpa : u.pausedAt = x) :
    (playAudio id buffer x now u).currentTime = x ∧
    (playAudio id buffer x now u).pausedAt = x := by
  obtain ⟨h1, h2⟩ := playAudio_seek_restart h buffer x now
  refine ⟨?_, h1.trans hpa⟩
  rw [h2]
  split
  · ring
  · exact hct

/-!
## The error paths of the JavaScript decoder
-/

theorem truncateOdd_half (data : List ℕ) :
    (truncateOdd data).length / 2 = data.length / 2 := by
  rw [truncateOdd_length]
  omega

theorem decodeJS_ok_of {data : List ℕ} {ch : ℕ} (sr : ℕ) (h0 : 0 < ch)
    (hdvd : ch ∣ data.length / 2) (hle : ch ≤ data.length / 2) :
    decodeAudioDataJS data sr ch = .ok (decodeAudioData data sr ch) := by
  obtain ⟨k, hk⟩ := hdvd
  simp only [decodeAudioDataJS]
  rw [truncateOdd_half, truncateOdd_length]
  rw [if_neg (by have := Nat.div_pos hle h0; omega), if_neg ?noob]
  case noob =>
    rintro ⟨channel, hch, i, hi, hloop, hoob⟩
    rw [List.mem_range] at hch hi
    rw [hk, mul_comm i ch] at hloop
    have hik : i < k := Nat.lt_of_mul_lt_mul_left hloop
    have hstep : ch * (i + 1) ≤ ch * k := Nat.mul_le_mul_left ch (by omega)
    rw [Nat.mul_succ] at hstep
    rw [mul_comm i ch] at hoob
    rw [hk] at hoob
    omega

theorem decodeJS_notSupported {data : List ℕ} {ch : ℕ} (sr : ℕ)
    (h : data.length / 2 / ch = 0) :
    decodeAudioDataJS data sr ch = .error .notSupported := by
  simp only [decodeAudioDataJS]
  rw [truncateOdd_half, if_pos h]

theorem decodeJS_rangeError {data : List ℕ} {ch : ℕ} (sr : ℕ)
    (h1 : 0 < data.length / 2 / ch) (h2 : data.length / 2 % ch ≠ 0) :
    decodeAudioDataJS data sr ch = .error .rangeError := by
  have hch : 0 < ch := by
    rcases Nat.eq_zero_or_pos ch with hz | hp
    · subst hz
      simp at h1
    · exact hp
  have hqm : ch * (data.length / 2 / ch) + data.length / 2 % ch
      = data.length / 2 := Nat.div_add_mod _ _
  simp only [decodeAudioDataJS]
  rw [truncateOdd_half, truncateOdd_length, if_neg (by omega)]
  have hex : ∃ channel ∈ List.range ch, ∃ i ∈ List.range (data.length / 2),
      i * ch < data.length / 2 ∧
      2 * (data.length / 2) < (i * ch + channel) * 2 + 2 := by
    refine ⟨data.length / 2 % ch, List.mem_range.mpr (Nat.mod_lt _ hch),
      data.length / 2 / ch, List.mem_range.mpr ?_, ?_, ?_⟩
    · have hle : data.length / 2 / ch ≤ ch * (data.length / 2 / ch) :=
        Nat.le_mul_of_pos_left _ hch
      omega
    · rw [mul_comm]
      omega
    · rw [mul_comm (data.length / 2 / ch) ch]
      omega
  rw [if_pos hex]

/-!
## Positional round-trip through the interleaved data chunk
-/

theorem getD_flatten_blocks {α : Type} (f : ℕ → List α) (k : ℕ)
    (h : ∀ j, (f j).length = k) (n : ℕ) {j r : ℕ} (hr : r < k) (d : α)
    (hj : j < n) :
    ((List.range n).map f).flatten.getD (j * k + r) d = (f j).getD r d := by
  induction n with
  | zero => exact absurd hj (Nat.not_lt_zero j)
  | succ m ih =>
      rw [List.range_succ, List.map_append, List.flatten_append]
      have hlen : ((List.range m).map f).flatten.length = m * k :=
        length_flatten_const f k m h
      rcases Nat.lt_or_ge j m with hjm | hjm
      · have hlt : j * k + r < ((List.range m).map f).flatten.length := by
          rw [hlen]
          have h2 : (j + 1) * k ≤ m * k := Nat.mul_le_mul_right k (by omega)
          rw [Nat.succ_mul] at h2
          omega
        rw [List.getD_append _ _ _ _ hlt]
        exact ih hjm
      · have hj' : j = m := by omega
        subst hj'
        have hge : ((List.range j).map f).flatten.length ≤ j * k + r := by
          rw [hlen]
          omega
        rw [List.getD_append_right _ _ _ _ hge, hlen,
          show j * k + r - j * k = r by omega]
        simp

theorem wavData_getInt16 (a : DecodedAudio) {c i : ℕ}
    (hc : c < a.numChannels) (hi : i < a.frameCount) :
    getInt16LE (wavData a) ((i * a.numChannels + c) * 2)
      = quantizeSample (sampleAt a c i) := by
  have hinner : ∀ pos, (((List.range a.numChannels).map fun ch' =>
      int16ToBytes (quantizeSample (sampleAt a ch' pos))).flatten).length
      = a.numChannels * 2 :=
    fun pos => length_flatten_const _ 2 _ fun ch' => rfl
  have key : ∀ r, r < 2 →
      getUint8 (wavData a) (i * (a.numChannels * 2) + (c * 2 + r))
        = (int16ToBytes (quantizeSample (sampleAt a c i))).getD r 0 := by
    intro r hr
    rw [getUint8, wavData,
      getD_flatten_blocks _ (a.numChannels * 2) hinner _ (by omega) 0 hi,
      getD_flatten_blocks
        (fun ch' => int16ToBytes (quantizeSample (sampleAt a ch' i))) 2
        (fun ch' => rfl) _ hr 0 hc]
  have h0 : getUint8 (wavData a) ((i * a.numChannels + c) * 2)
      = (int16ToBytes (quantizeSample (sampleAt a c i))).getD 0 0 := by
    rw [show (i * a.numChannels + c) * 2
        = i * (a.numChannels * 2) + (c * 2 + 0) by ring]
    exact key 0 (by omega)
  have h1 : getUint8 (wavData a) ((i * a.numChannels + c) * 2 + 1)
      = (int16ToBytes (quantizeSample (sampleAt a c i))).getD 1 0 := by
    rw [show (i * a.numChannels + c) * 2 + 1
        = i * (a.numChannels * 2) + (c * 2 + 1) by ring]
    exact key 1 (by omega)
  obtain ⟨hlo, hup⟩ := quantizeSample_range (sampleAt a c i)
  rw [← getInt16LE_int16ToBytes hlo hup]
  simp only [getInt16LE, h0, h1]
  rfl

theorem wavData_half (a : DecodedAudio) :
    (wavData a).length / 2 = a.frameCount * a.numChannels := by
  rw [wavData_length]
  exact Nat.mul_div_cancel _ (by norm_num)

theorem decode_wavData_frameCount (a : DecodedAudio)
    (h : 0 < a.numChannels) (sr : ℕ) :
    (decodeAudioData (wavData a) sr a.numChannels).frameCount
      = a.frameCount := by
  show (truncateOdd (wavData a)).length / 2 / a.numChannels = a.frameCount
  rw [truncateOdd_half, wavData_half]
  exact Nat.mul_div_cancel _ h

theorem roundTrip_pos_eq (a : DecodedAudio) {c i : ℕ}
    (h0 : 0 < a.numChannels) (hc : c < a.numChannels)
    (hi : i < a.frameCount) (sr : ℕ) :
    sampleAt (decodeAudioData (wavData a) sr a.numChannels) c i
      = (quantizeSample (sampleAt a c i) : ℚ) / 32768 := by
  rw [decode_sample_eq (wavData a) sr a.numChannels c i hc
      (by rw [decode_wavData_frameCount a h0 sr]; exact hi),
    wavData_getInt16 a hc hi]

theorem decodeJS_ok_wavData (a : DecodedAudio) (h0 : 0 < a.numChannels)
    (hf : 0 < a.frameCount) (sr : ℕ) :
    decodeAudioDataJS (wavData a) sr a.numChannels
      = .ok (decodeAudioData (wavData a) sr a.numChannels) := by
  apply decodeJS_ok_of sr h0
  · rw [wavData_half]
    exact dvd_mul_left a.numChannels a.frameCount
  · rw [wavData_half]
    exact Nat.le_mul_of_pos_left _ hf

theorem quantize_error_lt {s : ℚ} (h1 : -1 ≤ s) (h2 : s ≤ 1) :
    |s - (quantizeSample s : ℚ) / 32768| < 2/32768 := by
  simp only [quantizeSample, clampSample_eq_self h1 h2]
  split
  case isTrue h =>
    have b1 := sub_one_lt_jsTrunc (s * 32768)
    have b2 := jsTrunc_lt_add_one (s * 32768)
    rw [abs_lt]
    constructor <;> linarith
  case isFalse h =>
    have b1 := sub_one_lt_jsTrunc (s * 32767)
    have b2 := jsTrunc_lt_add_one (s * 32767)
    rw [abs_lt]
    constructor <;> linarith

/-!
## The claims
-/

/-- C1, counterexample: the encode-then-decode round trip does NOT stay
within one quantization step `1/32768` for every sample in `[-1,1]`:
at `s = 65531/65536` the reconstruction error is `3/65536 > 1/32768`
(the positive branch scales by 32767 while the decoder divides by
32768). -/
theorem roundtrip_one_step_counterexample :
    ¬ (|(65531/65536 : ℚ)
        - sampleAt (decodeAudioData (wavData (mono [65531/65536])) 24000 1) 0 0|
        ≤ 1/32768) := by
  rw [roundTrip_eq,
    show quantizeSample (65531/65536) = 32764 from by with_unfolding_all decide]
  rw [show (65531/65536 : ℚ) - ((32764 : ℤ) : ℚ) / 32768 = 3/65536 by norm_num]
  rw [abs_of_pos (by norm_num)]
  norm_num

/-- C1, amended: for every buffer, every channel `c` and every frame
`i`, if the sample at that position lies in `[-1,1]` then encoding the
buffer to WAV and decoding the data chunk back (with the buffer's own
sampleRate and channelCount) succeeds without error and reproduces that
sample, at its own position, to within two quantization steps
(`2/32768`, strictly); the one-step (`1/32768`) bound of the original
claim fails.  The specific endpoint behaviour holds: `1.0` decodes to a
value `< 1` but `> 1 - 1/32767`, and `-1.0` decodes exactly to `-1`. -/
theorem roundtrip_within_two_steps :
    (∀ (a : DecodedAudio) (c i : ℕ),
      0 < a.numChannels → c < a.numChannels → i < a.frameCount →
      -1 ≤ sampleAt a c i → sampleAt a c i ≤ 1 →
      decodeAudioDataJS (wavData a) a.sampleRate a.numChannels
        = .ok (decodeAudioData (wavData a) a.sampleRate a.numChannels) ∧
      |sampleAt a c i
        - sampleAt (decodeAudioData (wavData a) a.sampleRate a.numChannels)
            c i| < 2/32768) ∧
    (sampleAt (decodeAudioData (wavData (mono [1])) 24000 1) 0 0 < 1 ∧
     1 - 1/32767 < sampleAt (decodeAudioData (wavData (mono [1])) 24000 1) 0 0) ∧
    sampleAt (decodeAudioData (wavData (mono [-1])) 24000 1) 0 0 = -1 := by
  refine ⟨fun a c i h0 hc hi h1 h2 => ?_, ⟨?_, ?_⟩, ?_⟩
  · refine ⟨decodeJS_ok_wavData a h0 (by omega) a.sampleRate, ?_⟩
    rw [roundTrip_pos_eq a h0 hc hi a.sampleRate]
    exact quantize_error_lt h1 h2
  · rw [roundTrip_eq,
      show quantizeSample 1 = 32767 from by with_unfolding_all decide]
    norm_num
  · rw [roundTrip_eq,
      show quantizeSample 1 = 32767 from by with_unfolding_all decide]
    norm_num
  · rw [roundTrip_eq,
      show quantizeSample (-1) = -32768 from by with_unfolding_all decide]
    norm_num

/-- Witness for C1 on the one-frame mono buffer holding sample `0`. -/
theorem roundtrip_within_two_steps_witness :
    (0 < (mono [0]).numChannels ∧ 0 < (mono [0]).frameCount ∧
     -1 ≤ sampleAt (mono [0]) 0 0 ∧ sampleAt (mono [0]) 0 0 ≤ 1) ∧
    decodeAudioDataJS (wavData (mono [0])) (mono [0]).sampleRate
        (mono [0]).numChannels
      = .ok (decodeAudioData (wavData (mono [0])) (mono [0]).sampleRate
          (mono [0]).numChannels) ∧
    |sampleAt (mono [0]) 0 0
      - sampleAt (decodeAudioData (wavData (mono [0])) (mono [0]).sampleRate
          (mono [0]).numChannels) 0 0| < 2/32768 :=
  ⟨⟨by decide, by decide, by decide, by decide⟩,
   (roundtrip_within_two_steps.1 (mono [0]) 0 0 (by decide) (by decide)
     (by decide) (by decide) (by decide)).1,
   (roundtrip_within_two_steps.1 (mono [0]) 0 0 (by decide) (by decide)
     (by decide) (by decide) (by decide)).2⟩

/-- C2, counterexample: at `s = -1/4` (negative, so the claim prescribes
`floor(s * 32768) = -8192`) the encoder actually writes `-8191`: the
JavaScript condition `0.5 + sample < 0` parses as `(0.5 + sample) < 0`,
so `-1/4` takes the `* 32767` branch, and `| 0` truncates toward zero
rather than flooring. -/
theorem quantize_floor_claim_counterexample :
    getInt16LE (wavData (mono [-(1/4)])) 0 = -8191 ∧
    ⌊(-(1/4) : ℚ) * 32768⌋ = -8192 ∧
    (-(1/4) : ℚ) < 0 ∧
    getInt16LE (wavData (mono [-(1/4)])) 0 ≠ ⌊(-(1/4) : ℚ) * 32768⌋ := by
  have h1 : getInt16LE (wavData (mono [-(1/4)])) 0 = -8191 := by
    with_unfolding_all decide
  have h2 : ⌊(-(1/4) : ℚ) * 32768⌋ = -8192 := by norm_num
  exact ⟨h1, h2, by norm_num, by rw [h1, h2]; decide⟩

/-- C2, amended: the encoder clamps each sample to `[-1,1]` and then
quantizes with the threshold at `-1/2` (not `0`) and with truncation
toward zero (not floor): the written 16-bit value is
`trunc(s * 32768)` when the clamped sample is `< -1/2`, and
`trunc(s * 32767)` otherwise, where `trunc q = -⌊-q⌋` for negative `q`
and `⌊q⌋` otherwise. -/
theorem quantize_threshold_and_trunc :
    ∀ s : ℚ,
      getInt16LE (wavData (mono [s])) 0 =
        if clampSample s < -(1/2) then
          (if clampSample s * 32768 < 0 then -⌊-(clampSample s * 32768)⌋
           else ⌊clampSample s * 32768⌋)
        else
          (if clampSample s * 32767 < 0 then -⌊-(clampSample s * 32767)⌋
           else ⌊clampSample s * 32767⌋) := by
  intro s
  rw [wavData_mono]
  obtain ⟨hlo, hhi⟩ := quantizeSample_range s
  rw [getInt16LE_int16ToBytes hlo hhi]
  simp only [quantizeSample]
  by_cases h : (1/2 : ℚ) + clampSample s < 0
  · rw [if_pos h, if_pos (show clampSample s < -(1/2) by linarith)]
    exact jsTrunc_cases _
  · rw [if_neg h, if_neg (show ¬ clampSample s < -(1/2) by
      intro hc
      exact h (by linarith))]
    exact jsTrunc_cases _

/-- C3: every sample the decoder produces at frame `i`, channel `c` is
the little-endian signed 16-bit integer at byte offset
`(i * channelCount + c) * 2` of the input, divided by `32768`. -/
theorem decode_sample_formula (data : List ℕ) (sr ch c i : ℕ)
    (hc : c < ch) (hi : i < (decodeAudioData data sr ch).frameCount) :
    sampleAt (decodeAudioData data sr ch) c i
      = (getInt16LE data ((i * ch + c) * 2) : ℚ) / 32768 :=
  decode_sample_eq data sr ch c i hc hi

/-- Witness for C3 on the 4-byte input `[1, 2, 3, 4]`, frame 1,
channel 0. -/
theorem decode_sample_formula_witness :
    (0 < 1 ∧ 1 < (decodeAudioData [1, 2, 3, 4] 24000 1).frameCount) ∧
    sampleAt (decodeAudioData [1, 2, 3, 4] 24000 1) 0 1
      = (getInt16LE [1, 2, 3, 4] ((1 * 1 + 0) * 2) : ℚ) / 32768 :=
  ⟨⟨by decide, by decide⟩,
   decode_sample_formula [1, 2, 3, 4] 24000 1 0 1 (by decide) (by decide)⟩

/-- Helper: on the success-path model, `frameCount` is the floor
division `length / 2 / channelCount`, decoding equals decoding of the
even-length prefix, and a 5-byte mono input decodes to 2 frames. -/
theorem decode_framecount_truncation :
    (∀ (data : List ℕ) (sr ch : ℕ),
      (decodeAudioData data sr ch).frameCount = data.length / 2 / ch ∧
      decodeAudioData data sr ch
        = decodeAudioData (data.take (2 * (data.length / 2))) sr ch) ∧
    (∀ b0 b1 b2 b3 b4 : ℕ,
      (decodeAudioData [b0, b1, b2, b3, b4] 24000 1).frameCount = 2) := by
  have hfc : ∀ (data : List ℕ) (sr ch : ℕ),
      (decodeAudioData data sr ch).frameCount = data.length / 2 / ch := by
    intro data sr ch
    show (truncateOdd data).length / 2 / ch = data.length / 2 / ch
    rw [truncateOdd_length]
    congr 1
    omega
  refine ⟨fun data sr ch => ⟨hfc data sr ch, ?_⟩, fun b0 b1 b2 b3 b4 => ?_⟩
  · unfold decodeAudioData
    rw [truncateOdd_eq_take data, truncateOdd_take]
  · rw [hfc]
    simp

/-- C4, counterexample: the real decoder errors instead of yielding a
frame count: on the empty byte sequence the computed length is 0 and
`ctx.createBuffer` throws `NotSupportedError`, and on a 10-byte input
with 4 channels the fractional frame count `5/4` makes the copy loop
read past the data, so `DataView.getInt16` throws a `RangeError`. -/
theorem decode_error_counterexample :
    decodeAudioDataJS [] 24000 1 = .error .notSupported ∧
    decodeAudioDataJS (List.replicate 10 0) 24000 4 = .error .rangeError := by
  constructor
  · with_unfolding_all rfl
  · with_unfolding_all rfl

/-- C4, amended: whenever `channelCount ≥ 1` divides `⌊length/2⌋` and
`⌊length/2⌋ ≥ channelCount`, decoding succeeds with
`frameCount = ⌊length/2⌋ / channelCount` and an odd trailing byte is
silently dropped (decoding equals decoding of the even prefix);
otherwise the program errors rather than truncating: with a computed
length of 0 it raises `NotSupportedError`, and with a fractional frame
count it raises `RangeError`.  A 5-byte input with `channelCount = 1`
is in the success domain and yields `frameCount = 2`. -/
theorem decode_framecount_or_error :
    (∀ (data : List ℕ) (sr ch : ℕ),
      0 < ch → ch ∣ data.length / 2 → ch ≤ data.length / 2 →
      decodeAudioDataJS data sr ch = .ok (decodeAudioData data sr ch) ∧
      (decodeAudioData data sr ch).frameCount = data.length / 2 / ch ∧
      decodeAudioData data sr ch
        = decodeAudioData (data.take (2 * (data.length / 2))) sr ch) ∧
    (∀ (data : List ℕ) (sr ch : ℕ), data.length / 2 / ch = 0 →
      decodeAudioDataJS data sr ch = .error .notSupported) ∧
    (∀ (data : List ℕ) (sr ch : ℕ),
      0 < data.length / 2 / ch → data.length / 2 % ch ≠ 0 →
      decodeAudioDataJS data sr ch = .error .rangeError) ∧
    (∀ b0 b1 b2 b3 b4 : ℕ,
      decodeAudioDataJS [b0, b1, b2, b3, b4] 24000 1
        = .ok (decodeAudioData [b0, b1, b2, b3, b4] 24000 1) ∧
      (decodeAudioData [b0, b1, b2, b3, b4] 24000 1).frameCount = 2) :=
  ⟨fun data sr ch h0 hdvd hle =>
    ⟨decodeJS_ok_of sr h0 hdvd hle,
     (decode_framecount_truncation.1 data sr ch).1,
     (decode_framecount_truncation.1 data sr ch).2⟩,
   fun data sr ch h => decodeJS_notSupported sr h,
   fun data sr ch h1 h2 => decodeJS_rangeError sr h1 h2,
   fun b0 b1 b2 b3 b4 =>
    ⟨decodeJS_ok_of 24000 (by norm_num) (by simp) (by simp),
     decode_framecount_truncation.2 b0 b1 b2 b3 b4⟩⟩

/-- Witness for C4: a 4-byte mono input is in the success domain, and
the empty input and the 10-byte 4-channel input exercise the two error
branches. -/
theorem decode_framecount_or_error_witness :
    ((0 < 1 ∧ 1 ∣ [0, 0, 0, 0].length / 2 ∧ 1 ≤ [0, 0, 0, 0].length / 2) ∧
     decodeAudioDataJS [0, 0, 0, 0] 24000 1
        = .ok (decodeAudioData [0, 0, 0, 0] 24000 1) ∧
     (decodeAudioData [0, 0, 0, 0] 24000 1).frameCount
        = [0, 0, 0, 0].length / 2 / 1) ∧
    (([] : List ℕ).length / 2 / 1 = 0 ∧
     decodeAudioDataJS [] 24000 1 = .error .notSupported) ∧
    ((0 < (List.replicate 10 0).length / 2 / 4 ∧
      (List.replicate 10 0).length / 2 % 4 ≠ 0) ∧
     decodeAudioDataJS (List.replicate 10 0) 24000 4 = .error .rangeError) :=
  ⟨⟨⟨by decide, by decide, by decide⟩,
    (decode_framecount_or_error.1 [0, 0, 0, 0] 24000 1 (by decide) (by decide)
      (by decide)).1,
    (decode_framecount_or_error.1 [0, 0, 0, 0] 24000 1 (by decide) (by decide)
      (by decide)).2.1⟩,
   ⟨by decide, decode_framecount_or_error.2.1 [] 24000 1 (by decide)⟩,
   ⟨⟨by decide, by decide⟩,
    decode_framecount_or_error.2.2.1 (List.replicate 10 0) 24000 4 (by decide)
      (by decide)⟩⟩

/-- C5: the encoder writes exactly the 44-byte RIFF/WAVE header of the
spec (all fields little-endian, in the given order), and the concrete
1-channel, 24000 Hz, 100-frame zero buffer encodes to 244 bytes with
bytes 4-7 holding 236 and bytes 40-43 holding 200. -/
theorem wav_header_exact :
    (∀ a : DecodedAudio,
      (bufferToWav a).take 44
        = [82, 73, 70, 70]
          ++ u32LE (36 + a.frameCount * a.numChannels * 2)
          ++ [87, 65, 86, 69]
          ++ [102, 109, 116, 32]
          ++ u32LE 16
          ++ u16LE 1
          ++ u16LE a.numChannels
          ++ u32LE a.sampleRate
          ++ u32LE (a.sampleRate * a.numChannels * 2)
          ++ u16LE (a.numChannels * 2)
          ++ u16LE 16
          ++ [100, 97, 116, 97]
          ++ u32LE (a.frameCount * a.numChannels * 2)) ∧
    (bufferToWav (mono (List.replicate 100 0))).length = 244 ∧
    ((bufferToWav (mono (List.replicate 100 0))).drop 4).take 4
      = [236, 0, 0, 0] ∧
    ((bufferToWav (mono (List.replicate 100 0))).drop 40).take 4
      = [200, 0, 0, 0] := by
  refine ⟨fun a => ?_, ?_, ?_, ?_⟩
  · rw [bufferToWav, ← wavHeader_length a, List.take_left, wavHeader,
      show a.sampleRate * 2 * a.numChannels = a.sampleRate * a.numChannels * 2
        by ring]
  · rw [bufferToWav, List.length_append, wavHeader_length, wavData_length]
    rfl
  · rw [bufferToWav]
    rfl
  · rw [bufferToWav]
    rfl

/-- C10: the WAV encoder is total: for every buffer (samples clamped, so
even out-of-range floats quantize into `[-32768, 32767]`) it emits
exactly `44 + frameCount * channelCount * 2` bytes, and a zero-frame
buffer yields the bare 44-byte header. -/
theorem encoder_total :
    (∀ a : DecodedAudio,
      (bufferToWav a).length = 44 + a.frameCount * a.numChannels * 2) ∧
    (∀ s : ℚ, -32768 ≤ quantizeSample s ∧ quantizeSample s ≤ 32767) ∧
    (∀ a : DecodedAudio, a.frameCount = 0 →
      bufferToWav a = wavHeader a ∧ (bufferToWav a).length = 44) := by
  refine ⟨fun a => ?_, quantizeSample_range, fun a h => ?_⟩
  · rw [bufferToWav, List.length_append, wavHeader_length, wavData_length]
  · have hdata : wavData a = [] := by
      rw [wavData, h]
      rfl
    refine ⟨?_, ?_⟩
    · rw [bufferToWav, hdata, List.append_nil]
    · rw [bufferToWav, hdata, List.append_nil, wavHeader_length]

/-- Witness for C10 on the empty (zero-frame) buffer. -/
theorem encoder_total_witness :
    (mono []).frameCount = 0 ∧ (bufferToWav (mono [])).length = 44 :=
  ⟨rfl, (encoder_total.2.2 (mono []) rfl).2⟩

/-- C6: `playAudio` anchors the run at
`startTime = currentDeviceTime - offset`, records the buffer duration
on a track switch, the position loop publishes
`position = currentDeviceTime - anchor` while within the duration, and
in particular playing at offset 2 at device time `t0` and querying at
`t0 + 1` reports position 3. -/
theorem play_anchors_device_clock :
    (∀ (s : PlayerState) (id : String) (buffer : DecodedAudio)
        (offset now : ℚ),
      (playAudio id buffer offset now s).startTime = now - offset ∧
      (s.currentlyPlayingId ≠ some id →
        (playAudio id buffer offset now s).duration = buffer.duration)) ∧
    (∀ (s : PlayerState) (id : String) (buffer : DecodedAudio)
        (offset now t : ℚ),
      offset ≤ (playAudio id buffer offset now s).duration →
      t - (now - offset) ≤ (playAudio id buffer offset now s).duration →
      ((PlayerOp.tick t).apply (playAudio id buffer offset now s)).currentTime
        = t - (now - offset)) ∧
    (∀ t0 : ℚ,
      ((PlayerOp.tick (t0 + 1)).apply
        (playAudio "track" (mono (List.replicate 240000 0)) 2 t0
          initState)).currentTime = 3) := by
  refine ⟨fun s id buffer offset now =>
      ⟨playAudio_startTime id buffer offset now s,
       fun h => playAudio_duration_of_ne h buffer offset now⟩,
    fun s id buffer offset now t hoff ht =>
      playAudio_position id buffer offset now s t hoff ht,
    fun t0 => ?_⟩
  have hdur : (playAudio "track" (mono (List.replicate 240000 0)) 2 t0
      initState).duration = 10 := by
    rw [playAudio_duration_of_ne (by simp [initState]) _ 2 t0,
      DecodedAudio.duration,
      show (mono (List.replicate 240000 0)).frameCount = 240000 from by
        rw [mono]; exact List.length_replicate 240000 0,
      show (mono (List.replicate 240000 0)).sampleRate = 24000 from rfl]
    norm_num
  have hpos := playAudio_position "track" (mono (List.replicate 240000 0))
    2 t0 initState (t0 + 1) (by rw [hdur]; norm_num)
    (by rw [hdur]; linarith)
  rw [hpos]
  ring

/-- Witness for C6 at offset 0, device time 0, on the empty buffer. -/
theorem play_anchors_device_clock_witness :
    ((0 : ℚ) ≤ (playAudio "w" (mono []) 0 0 initState).duration ∧
     (0 : ℚ) - (0 - 0) ≤ (playAudio "w" (mono []) 0 0 initState).duration) ∧
    ((PlayerOp.tick 0).apply
      (playAudio "w" (mono []) 0 0 initState)).currentTime = 0 - (0 - 0) :=
  ⟨⟨by with_unfolding_all decide, by with_unfolding_all decide⟩,
   play_anchors_device_clock.2.1 initState "w" (mono []) 0 0 0
     (by with_unfolding_all decide) (by with_unfolding_all decide)⟩

/-- C7: the completion callback treats the run as a natural completion
exactly when `elapsed = now - anchor ≥ duration - 0.1`; only then does
it clear the playing flag and reset the published position and the
paused offset to 0, and an explicit stop short of that bound leaves the
published position and paused offset untouched. -/
theorem ended_natural_vs_stop :
    ∀ (s : PlayerState) (now : ℚ),
      (s.duration - 1/10 ≤ now - s.startTime →
        onEnded now s
          = { s with isPlaying := false, currentTime := 0, pausedAt := 0 }) ∧
      (now - s.startTime < s.duration - 1/10 →
        onEnded now s = s ∧
        (onEnded now (stopSource s)).currentTime = s.currentTime ∧
        (onEnded now (stopSource s)).pausedAt = s.pausedAt ∧
        (onEnded now (stopSource s)).isPlaying = s.isPlaying) := by
  intro s now
  obtain ⟨hst, hpa, hct, hip, hdu, hid⟩ := stopSource_fields s
  constructor
  · intro h
    rw [onEnded, if_pos h]
  · intro h
    have hcond : ¬ ((stopSource s).duration - 1/10
        ≤ now - (stopSource s).startTime) := by
      rw [hst, hdu]
      exact not_le.mpr h
    refine ⟨by rw [onEnded, if_neg (not_le.mpr h)], ?_, ?_, ?_⟩
    · rw [onEnded, if_neg hcond, hct]
    · rw [onEnded, if_neg hcond, hpa]
    · rw [onEnded, if_neg hcond, hip]

/-- Witness for C7: a run of duration 2 ending at elapsed time 3
resets the position, and one stopped at elapsed time 1 does not. -/
theorem ended_natural_vs_stop_witness :
    (({ initState with duration := 2 } : PlayerState).duration - 1/10
        ≤ (3 : ℚ) - ({ initState with duration := 2 } :
            PlayerState).startTime ∧
     (1 : ℚ) - ({ initState with duration := 2 } : PlayerState).startTime
        < ({ initState with duration := 2 } : PlayerState).duration
          - 1/10) ∧
    onEnded 3 { initState with duration := 2 }
      = { ({ initState with duration := 2 } : PlayerState) with
          isPlaying := false, currentTime := 0, pausedAt := 0 } ∧
    (onEnded 1 (stopSource { initState with duration := 2 })).pausedAt
      = ({ initState with duration := 2 } : PlayerState).pausedAt :=
  ⟨⟨by with_unfolding_all decide, by with_unfolding_all decide⟩,
   (ended_natural_vs_stop { initState with duration := 2 } 3).1
     (by with_unfolding_all decide),
   ((ended_natural_vs_stop { initState with duration := 2 } 1).2
     (by with_unfolding_all decide)).2.2.1⟩

/-- C8: over every sequence of player events started from the initial
state at most one output source is ever active (started and not
stopped); a `playAudio` for a different track first stops the previous
source (it is in `stopped` afterwards), resets the paused offset to 0
and records the new track id, and `stopSource` cancels the
position-update loop. -/
theorem single_active_output :
    (∀ (ops : List PlayerOp) (m m' : ℕ),
      activeSource (runOps ops initState) m →
      activeSource (runOps ops initState) m' → m = m') ∧
    (∀ (s : PlayerState) (id : String) (buffer : DecodedAudio)
        (offset now : ℚ) (n : ℕ),
      s.currentlyPlayingId ≠ some id →
      (s.sourceNode = some n →
        n ∈ (playAudio id buffer offset now s).stopped) ∧
      (playAudio id buffer offset now s).pausedAt = 0 ∧
      (playAudio id buffer offset now s).currentlyPlayingId = some id) ∧
    (∀ s : PlayerState, (stopSource s).animFrame = false ∧
      (stopSource s).sourceNode = none) := by
  refine ⟨fun ops m m' hm hm' =>
      sourceInv_unique (sourceInv_runOps ops sourceInv_init) hm hm',
    fun s id buffer offset now n h =>
      ⟨fun hsn => ?_, playAudio_pausedAt_of_ne h buffer offset now,
       playAudio_currentlyPlayingId_of_ne h buffer offset now⟩,
    fun s => ⟨stopSource_animFrame s, stopSource_sourceNode s⟩⟩
  rw [playAudio_stopped_of_ne h buffer offset now]
  exact stopSource_stops hsn

/-- Witness for C8: after `play(A)` then `play(B)` source 1 is the
single active one, and the second play stopped source 0. -/
theorem single_active_output_witness :
    (activeSource
      (runOps [PlayerOp.play "A" (mono []) 0 0,
               PlayerOp.play "B" (mono []) 0 0] initState) 1 ∧
     (1 : ℕ) = 1) ∧
    ((playAudio "A" (mono []) 0 0 initState).currentlyPlayingId
        ≠ some "B" ∧
     (playAudio "A" (mono []) 0 0 initState).sourceNode = some 0 ∧
     0 ∈ (playAudio "B" (mono []) 0 1
        (playAudio "A" (mono []) 0 0 initState)).stopped) :=
  ⟨⟨by with_unfolding_all decide,
    single_active_output.1 [PlayerOp.play "A" (mono []) 0 0,
      PlayerOp.play "B" (mono []) 0 0] 1 1
      (by with_unfolding_all decide) (by with_unfolding_all decide)⟩,
   by with_unfolding_all decide,
   by with_unfolding_all decide,
   (single_active_output.2.1 (playAudio "A" (mono []) 0 0 initState)
      "B" (mono []) 0 1 0 (by with_unfolding_all decide)).1
      (by with_unfolding_all decide)⟩

/-- C9, counterexample: seeking to 5 on a track of duration 2 stores 5,
not the clamped value 2, in both the published position and the paused
offset: `handleSeek` performs no clamping. -/
theorem seek_clamp_counterexample :
    (handleSeek 5 0 { initState with duration := 2 }).pausedAt = 5 ∧
    (handleSeek 5 0 { initState with duration := 2 }).currentTime = 5 ∧
    ({ initState with duration := 2 } : PlayerState).duration = 2 ∧
    (handleSeek 5 0 { initState with duration := 2 }).pausedAt
      ≠ min ({ initState with duration := 2 } : PlayerState).duration
          (max 0 5) := by
  refine ⟨rfl, rfl, rfl, ?_⟩
  with_unfolding_all decide

/-- C9, amended: `handleSeek` stores the seek target unchanged — with
no clamping to `[0, duration]` and no error — into both the published
position and the paused offset, for every target value, in-range or
not. -/
theorem seek_stores_raw_target :
    ∀ (newTime now : ℚ) (s : PlayerState),
      (handleSeek newTime now s).currentTime = newTime ∧
      (handleSeek newTime now s).pausedAt = newTime := by
  intro newTime now s
  simp only [handleSeek]
  split
  · rename_i id buffer heq1 heq2
    split
    · refine playAudio_same_track_position ?_ buffer newTime now rfl rfl
      exact heq1
    · exact ⟨rfl, rfl⟩
  · exact ⟨rfl, rfl⟩

end KanjouVoice
